import Mathlib

/-!
# Verification of the VibeProxy core (thinking-transform proxy and process supervisor)

Shallow embedding of the Go sources:
* `internal/proxy/thinking.go` — the JSON body transform `processThinkingParameter`;
* `internal/process/manager.go` — the `RingBuffer` log store, `Manager.Start`,
  and `Manager.RunAuthCommand`;
* `internal/auth/status.go` — the `handleConnect` service dispatch.

JSON is modelled by an inductive value type; a decoded `map[string]interface{}`
body is modelled as a finite map `String → Option JVal` (Go maps are unordered,
and every claim is about field lookups).  Go strings are modelled as `List Char`
(all strings involved are ASCII, so Go's byte indices coincide with character
indices).  Go `int` arithmetic is modelled over `Int`; the values involved are
tiny compared to 2^63, and `strconv.Atoi`'s 64-bit range check is carried
explicitly in `goAtoi`.  JSON numbers decode to Go `float64`; the claims under
study only involve integer payloads, so numbers are modelled as `Int` and the
Go truncation `int(x)` is the identity on them.
-/

namespace VibeProxy

/-- A JSON value, as decoded by Go's `encoding/json` into `interface{}`. -/
inductive JVal where
  | s (v : String)
  | n (v : Int)
  | b (v : Bool)
  | null
  | arr (elems : List JVal)
  | obj (fields : List (String × JVal))
  deriving Repr

/-- A decoded top-level JSON object (`map[string]interface{}`): a finite map
from field names to values (Go maps are unordered; claims only inspect lookups). -/
def JObj := String → Option JVal

/-- Field lookup, `jsonBody[k]`. -/
def JObj.get (o : JObj) (k : String) : Option JVal := o k

/-- Field assignment, `jsonBody[k] = v`. -/
def JObj.set (o : JObj) (k : String) (v : JVal) : JObj :=
  fun k2 => if k2 = k then some v else o k2

/-- An inbound request body: either bytes that do not decode to a JSON object
(`json.Unmarshal` fails) or a decoded object. -/
inductive Body where
  | raw (bytes : String)
  | obj (o : JObj)

/-- Field lookup through a `Body` (no fields on undecodable bytes). -/
def bodyGet (b : Body) (k : String) : Option JVal :=
  match b with
  | .raw _ => none
  | .obj o => o.get k

/-- `pat.isPrefixOf (s.drop i)`: the pattern occurs in `s` at index `i`. -/
def matchAt (s pat : List Char) (i : Nat) : Bool := pat.isPrefixOf (s.drop i)

/-- Scan indices `i, i-1, …, 0` for the last occurrence of `pat`. -/
def lastIndexAux (s pat : List Char) : Nat → Option Nat
  | 0 => if matchAt s pat 0 then some 0 else none
  | i + 1 => if matchAt s pat (i + 1) then some (i + 1) else lastIndexAux s pat i

/-- Go `strings.LastIndex s pat`: index of the last occurrence of `pat` in `s`,
`none` when absent (Go returns `-1`). -/
def lastIndexOf (s pat : List Char) : Option Nat := lastIndexAux s pat s.length

/-- Go `strings.HasPrefix`. -/
def hasPrefix (s pre : List Char) : Bool := pre.isPrefixOf s

/-- Go `strings.Contains s pat`. -/
def containsSubstr (s pat : String) : Bool := (lastIndexOf s.data pat.data).isSome

/-- Decimal digit reading for `goAtoi`; `none` on a non-digit. -/
def readDigits : List Char → Nat → Option Nat
  | [], acc => some acc
  | c :: rest, acc =>
      if c.isDigit then readDigits rest (acc * 10 + (c.toNat - 48)) else none

/-- Go `strconv.Atoi` (64-bit `int`): optional sign, decimal digits, error on
an empty string, a non-digit, or 64-bit overflow. -/
def goAtoi (s : List Char) : Option Int :=
  match s with
  | [] => none
  | c :: rest =>
    let neg : Bool := c = '-'
    let ds := if c = '-' ∨ c = '+' then rest else c :: rest
    if ds = [] then none
    else
      match readDigits ds 0 with
      | none => none
      | some m =>
        if neg then
          if (m : Int) ≤ 2 ^ 63 then some (-(m : Int)) else none
        else
          if (m : Int) ≤ 2 ^ 63 - 1 then some (m : Int) else none

/-- The fixed delimiter `"-thinking-"` of `thinking.go`. -/
def thinkingDelim : List Char := "-thinking-".data

/-- The fixed provider prefix `"claude-"`. -/
def claudePrefix : List Char := "claude-".data

/-- The `hardCap` constant of `processThinkingParameter`. -/
def hardCap : Int := 32000

/-- `effectiveBudget` (thinking.go lines 193–198): clamp the requested budget
strictly below the hard cap. -/
def effectiveBudget (budget : Int) : Int :=
  if budget ≥ hardCap then hardCap - 1 else budget

/-- `requiredMaxTokens` (thinking.go lines 206–222): headroom above the
effective budget, capped at `hardCap`, bumped to stay above the budget. -/
def requiredMaxTokens (eff : Int) : Int :=
  let tokenHeadroom : Int := if eff / 10 > 1024 then eff / 10 else 1024
  let desiredMaxTokens := eff + tokenHeadroom
  let required0 := if desiredMaxTokens > hardCap then hardCap else desiredMaxTokens
  if required0 ≤ eff then
    if eff + 1 > hardCap then hardCap else eff + 1
  else required0

/-- One `if v, ok := jsonBody[field].(float64); ok { … }` block of
thinking.go lines 228–240: overwrite a numeric max-token field that does not
exceed the effective budget; record that the field was seen (`adjusted`). -/
def adjustMaxField (o : JObj) (field : String) (eff req : Int) (adjusted : Bool) :
    JObj × Bool :=
  match o.get field with
  | some (.n v) => (if v ≤ eff then o.set field (.n req) else o, true)
  | _ => (o, adjusted)

/-- Thinking.go lines 200–248: add the `thinking` object for a valid positive
budget and enforce the max-token limits. -/
def addThinkingFields (o : JObj) (budget : Int) : JObj :=
  let eff := effectiveBudget budget
  let req := requiredMaxTokens eff
  let o2 := o.set "thinking"
    (.obj [("type", .s "enabled"), ("budget_tokens", .n eff)])
  let hasMaxOutputTokens := (o2.get "max_output_tokens").isSome
  let s3 := adjustMaxField o2 "max_tokens" eff req false
  let s4 := adjustMaxField s3.1 "max_output_tokens" eff req s3.2
  if s4.2 then s4.1
  else if hasMaxOutputTokens then s4.1.set "max_output_tokens" (.n req)
  else s4.1.set "max_tokens" (.n req)

/-- `processThinkingParameter` from `internal/proxy/thinking.go` (lines
159–258), on a decoded body.  Returns the (possibly) modified body and the
`needsTransformation` flag.  `json.Marshal` of a string-keyed map of plain
JSON values cannot fail, so the final serialization-fallback branch is vacuous
in the model. -/
def processThinkingParameter (body : Body) : Body × Bool :=
  match body with
  | .raw bytes => (.raw bytes, false)
  | .obj jsonBody =>
    match jsonBody.get "model" with
    | some (.s model) =>
      if hasPrefix model.data claudePrefix then
        match lastIndexOf model.data thinkingDelim with
        | none => (.obj jsonBody, false)
        | some idx =>
          let budgetStr := model.data.drop (idx + thinkingDelim.length)
          let cleanModel : String := ⟨model.data.take idx⟩
          let jsonBody1 := jsonBody.set "model" (.s cleanModel)
          match goAtoi budgetStr with
          | none => (.obj jsonBody1, true)
          | some budget =>
            if budget ≤ 0 then (.obj jsonBody1, true)
            else (.obj (addThinkingFields jsonBody1 budget), true)
      else (.obj jsonBody, false)
    | _ => (.obj jsonBody, false)

/-! ## Ring buffer (`internal/process/manager.go` lines 40–93) -/

/-- The fixed-size circular buffer for log lines. -/
structure RingBuffer where
  storage : List String
  head : Nat
  tail : Nat
  count : Nat
  cap : Nat

/-- `NewRingBuffer`: capacities below 1 are clamped to 1; storage is
pre-allocated (`make([]string, capacity)` zero-fills). -/
def NewRingBuffer (capacity : Nat) : RingBuffer :=
  let c := if capacity < 1 then 1 else capacity
  { storage := List.replicate c "", head := 0, tail := 0, count := 0, cap := c }

/-- `RingBuffer.Append` (lines 62–75): write at the tail, evict the oldest
once full. -/
def RingBuffer.Append (rb : RingBuffer) (line : String) : RingBuffer :=
  let storage := rb.storage.set rb.tail line
  if rb.count = rb.cap then
    { rb with storage := storage, head := (rb.head + 1) % rb.cap,
              tail := (rb.tail + 1) % rb.cap }
  else
    { rb with storage := storage, count := rb.count + 1,
              tail := (rb.tail + 1) % rb.cap }

/-- `RingBuffer.Elements` (lines 78–93): a fresh copy, oldest first. -/
def RingBuffer.Elements (rb : RingBuffer) : List String :=
  if rb.count = 0 then []
  else (List.range rb.count).map fun i => rb.storage.getD ((rb.head + i) % rb.cap) ""

/-- A sequence of `Append` calls, in order. -/
def appendAll (rb : RingBuffer) (lines : List String) : RingBuffer :=
  lines.foldl RingBuffer.Append rb

/-- The invariant tying a ring buffer of capacity `cap` to the full history of
lines appended so far: the stored window is the last `min |hist| cap` lines. -/
def RBInv (cap : Nat) (hist : List String) (rb : RingBuffer) : Prop :=
  rb.cap = cap ∧
  rb.storage.length = cap ∧
  rb.count = min hist.length cap ∧
  rb.head = (hist.length - rb.count) % cap ∧
  rb.tail = hist.length % cap ∧
  ∀ i, i < rb.count →
    rb.storage.getD ((rb.head + i) % cap) "" =
      hist.getD (hist.length - rb.count + i) ""

/-! ## Process supervisor `Start` (`manager.go` lines 122–200) -/

/-- The supervisor state relevant to `Start`: the running flag, the process
handle (modelled by its pid), and the two configured paths. -/
structure ManagerState where
  isRunning : Bool
  cmdPid : Option Nat
  binaryPath : String
  configPath : String

/-- Errors `Start` can report before a process exists. -/
inductive StartError where
  | binaryNotFound
  | configNotFound
  deriving DecidableEq, Repr

/-- Externally visible actions of `Start`. -/
inductive StartEvent where
  | killedOrphans
  | spawnedBackend (argv : List String)
  deriving DecidableEq, Repr

/-- `Manager.Start` (lines 122–200).  The file system is a predicate on paths
(`os.Stat` success); `newPid` is the pid the OS would assign.  Pipe-creation
and spawn failures are OS-level faults outside the claims and are modelled as
succeeding; the asynchronous waiter and output readers do not affect the
returned state. -/
def managerStart (fsExists : String → Bool) (newPid : Nat) (m : ManagerState) :
    ManagerState × List StartEvent × Option StartError :=
  if m.isRunning then (m, [], none)
  else
    let evs := [StartEvent.killedOrphans]
    if ¬ fsExists m.binaryPath then (m, evs, some .binaryNotFound)
    else if ¬ fsExists m.configPath then (m, evs, some .configNotFound)
    else
      ({ m with isRunning := true, cmdPid := some newPid },
        evs ++ [.spawnedBackend [m.binaryPath, "--config", m.configPath]], none)

/-! ## `RunAuthCommand` (`manager.go` lines 256–379) and the connect handler
(`internal/auth/status.go`, `handleConnect`) -/

/-- The four fixed auxiliary job kinds. -/
inductive AuthCommand where
  | claudeLogin
  | codexLogin
  | geminiLogin
  | qwenLogin
  deriving DecidableEq, Repr

/-- Externally visible actions of `RunAuthCommand`: spawning the child and the
delayed writes to its standard input. -/
inductive AuthEvent where
  | spawned (argv : List String)
  | wroteStdin (line : String)
  deriving DecidableEq, Repr

/-- Outcome of racing `cmd.Wait()` against the timer: the child either exited
within the window (with exit status and captured output) or is still running. -/
inductive ProcOutcome where
  | exited (exitErr : Bool) (stdout stderr : String)
  | stillRunning
  deriving DecidableEq, Repr

/-- The Go return triple `(bool, string, error)`; the error is modelled by its
presence. -/
structure AuthReturn where
  success : Bool
  message : String
  hasErr : Bool
  deriving DecidableEq, Repr

/-- The fixed success message of `RunAuthCommand`. -/
def browserMessage : String :=
  "🌐 Browser opened for authentication.\n\nPlease complete the login in your browser.\n\nThe app will automatically detect when you're authenticated."

/-- The per-kind job flag (`manager.go` lines 265–280). -/
def authFlag : AuthCommand → String
  | .claudeLogin => "-claude-login"
  | .codexLogin => "-codex-login"
  | .geminiLogin => "-login"
  | .qwenLogin => "-qwen-login"

/-- `RunAuthCommand` (lines 256–379).  `binaryExists` models `os.Stat` on the
binary path; `outcome` resolves the `select` between `cmd.Wait()` and the
timer.  The delayed stdin writes run in goroutines; the trace records the
writes the call schedules. -/
def runAuthCommand (binaryExists : Bool) (configPath : String)
    (command : AuthCommand) (email : String) (outcome : ProcOutcome) :
    List AuthEvent × AuthReturn :=
  if ¬ binaryExists then ([], ⟨false, "", true⟩)
  else
    let args := ["--config", configPath, authFlag command]
    let evs1 := [AuthEvent.spawned args]
    let evs2 := evs1 ++ (if command = .geminiLogin then [AuthEvent.wroteStdin "\n"] else [])
    let evs3 := evs2 ++
      (if command = .qwenLogin ∧ email ≠ "" then [AuthEvent.wroteStdin (email ++ "\n")]
       else [])
    let result : AuthReturn :=
      match outcome with
      | .exited exitErr stdout stderr =>
        if ¬ exitErr ∨ containsSubstr stdout "Opening browser"
            ∨ containsSubstr stdout "Attempting to open URL" then
          ⟨true, browserMessage, false⟩
        else
          let message :=
            if stderr ≠ "" then stderr
            else if stdout ≠ "" then stdout
            else "Authentication process failed unexpectedly"
          ⟨false, message, true⟩
      | .stillRunning => ⟨true, browserMessage, false⟩
    (evs3, result)

/-- ASCII lower-casing of one character (`strings.ToLower` restricted to the
ASCII service names it is applied to). -/
def charToLower (c : Char) : Char :=
  if 'A' ≤ c ∧ c ≤ 'Z' then Char.ofNat (c.toNat + 32) else c

/-- `strings.ToLower` on ASCII strings. -/
def strToLower (s : String) : String := ⟨s.data.map charToLower⟩

/-- Response of the UI server's connect handler. -/
inductive ConnectResponse where
  | httpError (status : Nat) (msg : String)
  | ran (result : AuthReturn)
  deriving DecidableEq, Repr

/-- `handleConnect` from `internal/auth/status.go`: service dispatch; the Qwen
service requires a non-empty email before `RunAuthCommand` is invoked. -/
def handleConnect (binaryExists : Bool) (configPath : String)
    (service email : String) (outcome : ProcOutcome) :
    ConnectResponse × List AuthEvent :=
  let dispatch : Option AuthCommand :=
    if strToLower service = "claude" then some .claudeLogin
    else if strToLower service = "codex" then some .codexLogin
    else if strToLower service = "gemini" then some .geminiLogin
    else if strToLower service = "qwen" then some .qwenLogin
    else none
  match dispatch with
  | none => (.httpError 400 "Unknown service", [])
  | some cmd =>
    if cmd = .qwenLogin ∧ email = "" then
      (.httpError 400 "Email required for Qwen", [])
    else
      let r := runAuthCommand binaryExists configPath cmd email outcome
      (.ran r.2, r.1)

/-! ## Concrete bodies used in examples, witnesses and counterexamples -/

/-- Example 1 of the spec: `{"model":"claude-x-thinking-5000","max_tokens":100}`. -/
def exampleBody1 : JObj := fun k =>
  if k = "model" then some (.s "claude-x-thinking-5000")
  else if k = "max_tokens" then some (.n 100)
  else none

/-- `{"model":"claude-thinking-1-thinking-5000"}`: the clean model name still
contains the delimiter. -/
def nestedBody : JObj := fun k =>
  if k = "model" then some (.s "claude-thinking-1-thinking-5000") else none

/-- `{"model":"gpt-4o"}`: no provider prefix. -/
def gptBody : JObj := fun k =>
  if k = "model" then some (.s "gpt-4o") else none

/-- Example 3 of the spec: `{"model":"claude-x-thinking-abc"}`. -/
def abcBody : JObj := fun k =>
  if k = "model" then some (.s "claude-x-thinking-abc") else none

/-- A requested budget of 2^63, one past the 64-bit `int` range of
`strconv.Atoi`. -/
def overflowBody : JObj := fun k =>
  if k = "model" then some (.s "claude-x-thinking-9223372036854775808") else none

/-- Example 2 of the spec: a requested budget of 40000. -/
def budget40000Body : JObj := fun k =>
  if k = "model" then some (.s "claude-x-thinking-40000") else none

/-- The numeric value of a decimal digit string (most significant digit first). -/
def decimalVal (ds : List Char) : Nat :=
  ds.foldl (fun acc c => acc * 10 + (c.toNat - 48)) 0

/-- The max-token ceiling exactly as the spec words it: `headroom =
max(fixedMinHeadroom, effectiveBudget / 10)` with `fixedMinHeadroom = 1024`,
`desired = effectiveBudget + headroom`, `ceiling = min(desired, hardCap)`, and
if `ceiling <= effectiveBudget` then `ceiling = min(effectiveBudget + 1,
hardCap)`.  Stated for comparison with the code's `requiredMaxTokens`. -/
def specCeiling (eff : Int) : Int :=
  if min (eff + max 1024 (eff / 10)) hardCap ≤ eff
  then min (eff + 1) hardCap
  else min (eff + max 1024 (eff / 10)) hardCap

/-! ## Basic lemmas about the JSON object model -/

theorem JObj.get_set_self (o : JObj) (k : String) (v : JVal) :
    (o.set k v).get k = some v := by
  simp [JObj.get, JObj.set]

theorem JObj.get_set_ne (o : JObj) (k k2 : String) (v : JVal) (h : k2 ≠ k) :
    (o.set k v).get k2 = o.get k2 := by
  simp [JObj.get, JObj.set, h]

/-! ## Fail-open paths of the transform -/

theorem process_raw (s : String) :
    processThinkingParameter (.raw s) = (.raw s, false) := rfl

theorem process_no_model (o : JObj) (h : ∀ m, o.get "model" ≠ some (.s m)) :
    processThinkingParameter (.obj o) = (.obj o, false) := by
  simp only [processThinkingParameter]

theorem process_wrong_provider (o : JObj) (m : String)
    (hm : o.get "model" = some (.s m))
    (hp : hasPrefix m.data claudePrefix = false) :
    processThinkingParameter (.obj o) = (.obj o, false) := by
  simp only [processThinkingParameter, hm, hp]
  simp

theorem process_no_delim (o : JObj) (m : String)
    (hm : o.get "model" = some (.s m))
    (hp : hasPrefix m.data claudePrefix = true)
    (hd : lastIndexOf m.data thinkingDelim = none) :
    processThinkingParameter (.obj o) = (.obj o, false) := by
  simp only [processThinkingParameter, hm, hp, hd]
  simp

/-- Valid-budget path: the model is rewritten and the thinking/max-token
fields are produced by `addThinkingFields`. -/
theorem process_valid_budget (o : JObj) (m : String) (idx : Nat) (budget : Int)
    (hm : o.get "model" = some (.s m))
    (hp : hasPrefix m.data claudePrefix = true)
    (hd : lastIndexOf m.data thinkingDelim = some idx)
    (hb : goAtoi (m.data.drop (idx + thinkingDelim.length)) = some budget)
    (hpos : 0 < budget) :
    processThinkingParameter (.obj o) =
      (.obj (addThinkingFields (o.set "model" (.s ⟨m.data.take idx⟩)) budget), true) := by
  simp only [processThinkingParameter, hm, hp, hd, hb]
  simp [not_le.mpr hpos]

/-- Invalid-budget path: only the model field is stripped. -/
theorem process_invalid_budget (o : JObj) (m : String) (idx : Nat)
    (hm : o.get "model" = some (.s m))
    (hp : hasPrefix m.data claudePrefix = true)
    (hd : lastIndexOf m.data thinkingDelim = some idx)
    (hb : goAtoi (m.data.drop (idx + thinkingDelim.length)) = none ∨
      ∃ budget, goAtoi (m.data.drop (idx + thinkingDelim.length)) = some budget ∧
        budget ≤ 0) :
    processThinkingParameter (.obj o) =
      (.obj (o.set "model" (.s ⟨m.data.take idx⟩)), true) := by
  rcases hb with hb | ⟨budget, hb, hneg⟩
  · simp only [processThinkingParameter, hm, hp, hd, hb]
    simp
  · simp only [processThinkingParameter, hm, hp, hd, hb]
    simp [hneg]

/-- C6: for every body that is not a JSON object, or whose `model` field is
absent or not a string, or whose model string lacks the `claude-` prefix, or
contains no `-thinking-` delimiter, the transform returns its input unchanged
and reports no transformation. -/
theorem C6_unmatched_identity (b : Body)
    (h : (∃ s, b = .raw s) ∨
      (∀ m, bodyGet b "model" ≠ some (.s m)) ∨
      (∃ m, bodyGet b "model" = some (.s m) ∧
        (hasPrefix m.data claudePrefix = false ∨
          lastIndexOf m.data thinkingDelim = none))) :
    processThinkingParameter b = (b, false) := by
  cases b with
  | raw s => exact process_raw s
  | obj o =>
    rcases h with ⟨s, hs⟩ | h | ⟨m, hm, hp | hd⟩
    · exact Body.noConfusion hs
    · exact process_no_model o h
    · exact process_wrong_provider o m hm hp
    · by_cases hpre : hasPrefix m.data claudePrefix = true
      · exact process_no_delim o m hm hpre hd
      · exact process_wrong_provider o m hm (Bool.not_eq_true _ ▸ hpre)

/-- Witness for C6 at the concrete body `{"model":"gpt-4o"}`. -/
theorem C6_unmatched_identity_witness :
    processThinkingParameter (.obj gptBody) = (.obj gptBody, false) :=
  C6_unmatched_identity (.obj gptBody)
    (Or.inr (Or.inr ⟨"gpt-4o", rfl, Or.inl (by decide)⟩))

/-- C7: when the model matches the prefix and contains the delimiter but the
suffix after the last delimiter is not a positive integer, the output model is
the text before the last delimiter, no thinking object is added, and no other
field changes. -/
theorem C7_invalid_suffix (o : JObj) (m : String) (idx : Nat)
    (hm : o.get "model" = some (.s m))
    (hp : hasPrefix m.data claudePrefix = true)
    (hd : lastIndexOf m.data thinkingDelim = some idx)
    (hb : goAtoi (m.data.drop (idx + thinkingDelim.length)) = none ∨
      ∃ budget, goAtoi (m.data.drop (idx + thinkingDelim.length)) = some budget ∧
        budget ≤ 0) :
    bodyGet (processThinkingParameter (.obj o)).1 "model" =
      some (.s ⟨m.data.take idx⟩) ∧
    bodyGet (processThinkingParameter (.obj o)).1 "thinking" = o.get "thinking" ∧
    ∀ k, k ≠ "model" → bodyGet (processThinkingParameter (.obj o)).1 k = o.get k := by
  rw [process_invalid_budget o m idx hm hp hd hb]
  refine ⟨JObj.get_set_self o "model" _, ?_, ?_⟩
  · exact JObj.get_set_ne o "model" "thinking" _ (by decide)
  · intro k hk
    exact JObj.get_set_ne o "model" k _ hk

/-- Witness for C7 at Example 3 of the spec, `{"model":"claude-x-thinking-abc"}`. -/
theorem C7_invalid_suffix_witness :
    bodyGet (processThinkingParameter (.obj abcBody)).1 "model" =
      some (.s "claude-x") ∧
    bodyGet (processThinkingParameter (.obj abcBody)).1 "thinking" = none := by
  have h := C7_invalid_suffix abcBody "claude-x-thinking-abc" 8 rfl (by decide)
    (by decide) (Or.inl (by decide))
  exact ⟨h.1, h.2.1.trans rfl⟩

/-! ## The max-token adjustment of the valid-budget path -/

theorem adjustMaxField_num (o : JObj) (field : String) (eff req : Int) (adj : Bool)
    (v : Int) (hv : o.get field = some (.n v)) :
    adjustMaxField o field eff req adj =
      (if v ≤ eff then o.set field (.n req) else o, true) := by
  unfold adjustMaxField
  rw [hv]

theorem adjustMaxField_snd_true (o : JObj) (field : String) (eff req : Int) :
    (adjustMaxField o field eff req true).2 = true := by
  unfold adjustMaxField
  split
  · rfl
  · rfl

theorem adjustMaxField_get_other (o : JObj) (field k : String) (eff req : Int)
    (adj : Bool) (hk : k ≠ field) :
    (adjustMaxField o field eff req adj).1.get k = o.get k := by
  unfold adjustMaxField
  split
  · rename_i v heq
    by_cases hle : v ≤ eff
    · simp only [hle, if_true]
      exact JObj.get_set_ne o field k _ hk
    · simp [hle]
  · rfl

theorem addThinkingFields_max_tokens (o : JObj) (budget v : Int)
    (hv : o.get "max_tokens" = some (.n v)) :
    (addThinkingFields o budget).get "max_tokens" =
      some (.n (if v ≤ effectiveBudget budget
        then requiredMaxTokens (effectiveBudget budget) else v)) := by
  have h2 : (o.set "thinking"
      (.obj [("type", .s "enabled"), ("budget_tokens", .n (effectiveBudget budget))])).get
        "max_tokens" = some (.n v) :=
    (JObj.get_set_ne _ _ _ _ (by decide)).trans hv
  simp only [addThinkingFields]
  rw [adjustMaxField_num _ _ _ _ _ v h2]
  rw [adjustMaxField_snd_true]
  simp only [if_true]
  rw [adjustMaxField_get_other _ _ _ _ _ _ (by decide)]
  by_cases hle : v ≤ effectiveBudget budget
  · simp only [hle, if_true]
    exact JObj.get_set_self _ _ _
  · simp only [hle, if_false]
    exact h2

theorem addThinkingFields_max_output (o : JObj) (budget v : Int)
    (hv : o.get "max_output_tokens" = some (.n v)) :
    (addThinkingFields o budget).get "max_output_tokens" =
      some (.n (if v ≤ effectiveBudget budget
        then requiredMaxTokens (effectiveBudget budget) else v)) := by
  have h2 : (o.set "thinking"
      (.obj [("type", .s "enabled"), ("budget_tokens", .n (effectiveBudget budget))])).get
        "max_output_tokens" = some (.n v) :=
    (JObj.get_set_ne _ _ _ _ (by decide)).trans hv
  have h3 : (adjustMaxField (o.set "thinking"
      (.obj [("type", .s "enabled"), ("budget_tokens", .n (effectiveBudget budget))]))
        "max_tokens" (effectiveBudget budget) (requiredMaxTokens (effectiveBudget budget))
        false).1.get "max_output_tokens" = some (.n v) :=
    (adjustMaxField_get_other _ _ _ _ _ _ (by decide)).trans h2
  simp only [addThinkingFields]
  rw [adjustMaxField_num _ _ _ _ _ v h3]
  simp only [if_true]
  by_cases hle : v ≤ effectiveBudget budget
  · simp only [hle, if_true]
    exact JObj.get_set_self _ _ _
  · simp only [hle, if_false]
    exact h3

theorem addThinkingFields_frame (o : JObj) (budget : Int) (k : String)
    (h2 : k ≠ "thinking") (h3 : k ≠ "max_tokens") (h4 : k ≠ "max_output_tokens") :
    (addThinkingFields o budget).get k = o.get k := by
  simp only [addThinkingFields]
  split
  · rw [adjustMaxField_get_other _ _ _ _ _ _ h4, adjustMaxField_get_other _ _ _ _ _ _ h3]
    exact JObj.get_set_ne _ _ _ _ h2
  · split
    · rw [JObj.get_set_ne _ _ _ _ h4, adjustMaxField_get_other _ _ _ _ _ _ h4,
        adjustMaxField_get_other _ _ _ _ _ _ h3]
      exact JObj.get_set_ne _ _ _ _ h2
    · rw [JObj.get_set_ne _ _ _ _ h3, adjustMaxField_get_other _ _ _ _ _ _ h4,
        adjustMaxField_get_other _ _ _ _ _ _ h3]
      exact JObj.get_set_ne _ _ _ _ h2

/-- The code's `requiredMaxTokens` computation agrees with the spec's ceiling
formula. -/
theorem requiredMaxTokens_eq_specCeiling (eff : Int) :
    requiredMaxTokens eff = specCeiling eff := by
  simp only [requiredMaxTokens, specCeiling, hardCap]
  split_ifs <;> omega

/-- Every key other than the four recognized ones passes through the transform
untouched, on every path. -/
theorem process_frame (b : Body) (k : String)
    (h1 : k ≠ "model") (h2 : k ≠ "thinking") (h3 : k ≠ "max_tokens")
    (h4 : k ≠ "max_output_tokens") :
    bodyGet (processThinkingParameter b).1 k = bodyGet b k := by
  cases b with
  | raw s => rfl
  | obj o =>
    rcases hmod : o.get "model" with _ | v
    · rw [process_no_model o (by simp [hmod])]
    · cases v with
      | s m =>
        by_cases hpre : hasPrefix m.data claudePrefix = true
        · rcases hdel : lastIndexOf m.data thinkingDelim with _ | idx
          · rw [process_no_delim o m hmod hpre hdel]
          · rcases hat : goAtoi (m.data.drop (idx + thinkingDelim.length)) with _ | bud
            · rw [process_invalid_budget o m idx hmod hpre hdel (Or.inl hat)]
              exact JObj.get_set_ne _ _ _ _ h1
            · by_cases hbp : 0 < bud
              · rw [process_valid_budget o m idx bud hmod hpre hdel hat hbp]
                show (addThinkingFields _ _).get k = o.get k
                rw [addThinkingFields_frame _ _ _ h2 h3 h4]
                exact JObj.get_set_ne _ _ _ _ h1
              · rw [process_invalid_budget o m idx hmod hpre hdel
                  (Or.inr ⟨bud, hat, by omega⟩)]
                exact JObj.get_set_ne _ _ _ _ h1
        · rw [process_wrong_provider o m hmod (by simpa using hpre)]
      | n w => rw [process_no_model o (by simp [hmod])]
      | b w => rw [process_no_model o (by simp [hmod])]
      | null => rw [process_no_model o (by simp [hmod])]
      | arr l => rw [process_no_model o (by simp [hmod])]
      | obj l => rw [process_no_model o (by simp [hmod])]

/-- C4: whenever a valid positive budget is extracted, a recognized max-token
field present as a number is overwritten exactly when its value is at most the
effective budget, and the written value is the spec's ceiling: `headroom =
max(1024, effectiveBudget / 10)`, `desired = effectiveBudget + headroom`,
`ceiling = min(desired, hardCap)`, bumped to `min(effectiveBudget + 1,
hardCap)` whenever `ceiling ≤ effectiveBudget`. -/
theorem C4_max_token_ceiling (o : JObj) (m : String) (idx : Nat) (budget : Int)
    (hm : o.get "model" = some (.s m))
    (hp : hasPrefix m.data claudePrefix = true)
    (hd : lastIndexOf m.data thinkingDelim = some idx)
    (hb : goAtoi (m.data.drop (idx + thinkingDelim.length)) = some budget)
    (hpos : 0 < budget) :
    (∀ v : Int, o.get "max_tokens" = some (.n v) →
      bodyGet (processThinkingParameter (.obj o)).1 "max_tokens" =
        some (.n (if v ≤ effectiveBudget budget
          then specCeiling (effectiveBudget budget) else v))) ∧
    (∀ v : Int, o.get "max_output_tokens" = some (.n v) →
      bodyGet (processThinkingParameter (.obj o)).1 "max_output_tokens" =
        some (.n (if v ≤ effectiveBudget budget
          then specCeiling (effectiveBudget budget) else v))) := by
  rw [process_valid_budget o m idx budget hm hp hd hb hpos]
  constructor
  · intro v hv
    show (addThinkingFields _ _).get "max_tokens" = _
    rw [addThinkingFields_max_tokens _ _ v
      ((JObj.get_set_ne _ _ _ _ (by decide)).trans hv)]
    rw [requiredMaxTokens_eq_specCeiling]
  · intro v hv
    show (addThinkingFields _ _).get "max_output_tokens" = _
    rw [addThinkingFields_max_output _ _ v
      ((JObj.get_set_ne _ _ _ _ (by decide)).trans hv)]
    rw [requiredMaxTokens_eq_specCeiling]

/-- Witness for C4 at Example 1's body: `max_tokens` 100 with budget 5000 is
rewritten to the ceiling 6024. -/
theorem C4_max_token_ceiling_witness :
    bodyGet (processThinkingParameter (.obj exampleBody1)).1 "max_tokens" =
      some (.n 6024) := by
  have h := (C4_max_token_ceiling exampleBody1 "claude-x-thinking-5000" 8 5000 rfl
    (by decide) (by decide) (by decide) (by decide)).1 100 rfl
  rw [h]
  norm_num [specCeiling, effectiveBudget, hardCap]

/-- C10: on every body the transform accepts and rewrites, every top-level key
other than `model`, `thinking`, `max_tokens` and `max_output_tokens` keeps its
original value. -/
theorem C10_frame_effect (b : Body) (k : String)
    (_happ : (processThinkingParameter b).2 = true)
    (h1 : k ≠ "model") (h2 : k ≠ "thinking") (h3 : k ≠ "max_tokens")
    (h4 : k ≠ "max_output_tokens") :
    bodyGet (processThinkingParameter b).1 k = bodyGet b k :=
  process_frame b k h1 h2 h3 h4

/-- Witness for C10 at Example 1's body and the unrelated key `temperature`. -/
theorem C10_frame_effect_witness :
    bodyGet (processThinkingParameter (.obj exampleBody1)).1 "temperature" =
      bodyGet (.obj exampleBody1) "temperature" :=
  C10_frame_effect (.obj exampleBody1) "temperature" rfl (by decide) (by decide)
    (by decide) (by decide)

/-- C1 fails as stated: on Example 1's input the rewritten `max_tokens` value
is 6024 (budget 5000 plus the fixed minimum headroom 1024), not 5500. -/
theorem C1_counterexample :
    bodyGet (processThinkingParameter (.obj exampleBody1)).1 "max_tokens" =
      some (.n 6024) ∧
    bodyGet (processThinkingParameter (.obj exampleBody1)).1 "max_tokens" ≠
      some (.n 5500) := by
  constructor
  · rfl
  · intro h
    have h2 : (some (JVal.n 6024) : Option JVal) = some (JVal.n 5500) := h
    injection h2 with h3
    injection h3 with h4
    exact absurd h4 (by decide)

/-- C1 amended: Example 1's input produces exactly model `claude-x`, thinking
enabled with budget 5000, and `max_tokens` 6024; no other field is present. -/
theorem C1_amended :
    (processThinkingParameter (.obj exampleBody1)).2 = true ∧
    bodyGet (processThinkingParameter (.obj exampleBody1)).1 "model" =
      some (.s "claude-x") ∧
    bodyGet (processThinkingParameter (.obj exampleBody1)).1 "thinking" =
      some (.obj [("type", .s "enabled"), ("budget_tokens", .n 5000)]) ∧
    bodyGet (processThinkingParameter (.obj exampleBody1)).1 "max_tokens" =
      some (.n 6024) ∧
    bodyGet (processThinkingParameter (.obj exampleBody1)).1 "max_output_tokens" =
      none ∧
    ∀ k, k ≠ "model" → k ≠ "thinking" → k ≠ "max_tokens" →
      k ≠ "max_output_tokens" →
      bodyGet (processThinkingParameter (.obj exampleBody1)).1 k = none := by
  refine ⟨rfl, rfl, rfl, rfl, rfl, ?_⟩
  intro k h1 h2 h3 h4
  rw [process_frame _ k h1 h2 h3 h4]
  show exampleBody1 k = none
  simp [exampleBody1, h1, h3]

/-- Witness for the amended C1 at the unrelated key `stream`. -/
theorem C1_amended_witness :
    bodyGet (processThinkingParameter (.obj exampleBody1)).1 "stream" = none :=
  C1_amended.2.2.2.2.2 "stream" (by decide) (by decide) (by decide) (by decide)

/-- C2 fails as stated: on `{"model":"claude-thinking-1-thinking-5000"}` the
output's model `claude-thinking-1` still contains the delimiter, and a second
application rewrites the body again. -/
theorem C2_counterexample :
    bodyGet (processThinkingParameter (.obj nestedBody)).1 "model" =
      some (.s "claude-thinking-1") ∧
    (processThinkingParameter (processThinkingParameter (.obj nestedBody)).1).2 =
      true ∧
    bodyGet (processThinkingParameter
      (processThinkingParameter (.obj nestedBody)).1).1 "model" =
      some (.s "claude") ∧
    bodyGet (processThinkingParameter
        (processThinkingParameter (.obj nestedBody)).1).1 "model" ≠
      bodyGet (processThinkingParameter (.obj nestedBody)).1 "model" := by
  refine ⟨rfl, rfl, rfl, ?_⟩
  intro h
  have h2 : (some (JVal.s "claude") : Option JVal) =
      some (JVal.s "claude-thinking-1") := h
  injection h2 with h3
  injection h3 with h4
  exact absurd h4 (by decide)

/-- C2 amended: re-applying the transform to its own output is a no-op
whenever that output's model name no longer contains the `-thinking-`
delimiter (which can fail to hold: see the counterexample). -/
theorem C2_amended (b : Body)
    (h : ∀ m, bodyGet (processThinkingParameter b).1 "model" = some (.s m) →
      lastIndexOf m.data thinkingDelim = none) :
    processThinkingParameter (processThinkingParameter b).1 =
      ((processThinkingParameter b).1, false) := by
  rcases hb : (processThinkingParameter b).1 with s | o
  · exact process_raw s
  · rcases hmod : o.get "model" with _ | v
    · exact process_no_model o (by simp [hmod])
    · cases v with
      | s m =>
        by_cases hpre : hasPrefix m.data claudePrefix = true
        · refine process_no_delim o m hmod hpre ?_
          apply h
          rw [hb]
          exact hmod
        · exact process_wrong_provider o m hmod (by simpa using hpre)
      | n w => exact process_no_model o (by simp [hmod])
      | b w => exact process_no_model o (by simp [hmod])
      | null => exact process_no_model o (by simp [hmod])
      | arr l => exact process_no_model o (by simp [hmod])
      | obj l => exact process_no_model o (by simp [hmod])

/-- Witness for the amended C2 at Example 1's body, whose output model
`claude-x` contains no delimiter. -/
theorem C2_amended_witness :
    processThinkingParameter (processThinkingParameter (.obj exampleBody1)).1 =
      ((processThinkingParameter (.obj exampleBody1)).1, false) := by
  apply C2_amended
  intro m hm
  have h2 : (some (JVal.s "claude-x") : Option JVal) = some (JVal.s m) := hm
  injection h2 with h3
  injection h3 with h4
  rw [← h4]
  decide

/-! ## Locating the last `-thinking-` occurrence in a well-formed model name -/

theorem thinkingDelim_eq :
    thinkingDelim = ['-', 't', 'h', 'i', 'n', 'k', 'i', 'n', 'g', '-'] := rfl

theorem lastIndexAux_eq_some (s pat : List Char) (j : Nat)
    (hj : matchAt s pat j = true) :
    ∀ i, j ≤ i → (∀ k, j < k → k ≤ i → matchAt s pat k = false) →
      lastIndexAux s pat i = some j := by
  intro i
  induction i with
  | zero =>
    intro hji _
    have : j = 0 := Nat.le_zero.mp hji
    subst this
    simp [lastIndexAux, hj]
  | succ n ih =>
    intro hji hk
    by_cases hEq : j = n + 1
    · subst hEq
      simp [lastIndexAux, hj]
    · have hj' : j ≤ n := by omega
      have hfalse : matchAt s pat (n + 1) = false := hk (n + 1) (by omega) (Nat.le_refl _)
      simp only [lastIndexAux, hfalse]
      simp only [Bool.false_eq_true, if_false]
      exact ih hj' fun k h1 h2 => hk k h1 (by omega)

theorem no_match_beyond (p ds : List Char) (hds : ∀ c ∈ ds, c.isDigit = true) :
    ∀ k, p.length < k →
      matchAt (p ++ thinkingDelim ++ ds) thinkingDelim k = false := by
  intro k hk
  by_contra hcon
  have hmt : thinkingDelim.isPrefixOf ((p ++ thinkingDelim ++ ds).drop k) = true := by
    revert hcon
    unfold matchAt
    cases thinkingDelim.isPrefixOf ((p ++ thinkingDelim ++ ds).drop k) <;> simp
  obtain ⟨t, ht⟩ := List.isPrefixOf_iff_prefix.mp hmt
  have hL0 : (thinkingDelim ++ t)[0]? = some '-' := rfl
  have hL1 : (thinkingDelim ++ t)[1]? = some 't' := rfl
  have h0 : (p ++ thinkingDelim ++ ds)[k]? = some '-' := by
    have h := congrArg (fun l => l[0]?) ht.symm
    simp only at h
    rw [List.getElem?_drop, Nat.add_zero, hL0] at h
    exact h
  have h1 : (p ++ thinkingDelim ++ ds)[k + 1]? = some 't' := by
    have h := congrArg (fun l => l[1]?) ht.symm
    simp only at h
    rw [List.getElem?_drop, hL1] at h
    exact h
  obtain ⟨e, he, rfl⟩ : ∃ e, 1 ≤ e ∧ k = p.length + e :=
    ⟨k - p.length, by omega, by omega⟩
  have hdlen : thinkingDelim.length = 10 := rfl
  rw [List.append_assoc, List.getElem?_append_right (by omega)] at h0
  rw [Nat.add_sub_cancel_left] at h0
  rw [List.append_assoc, Nat.add_assoc,
    List.getElem?_append_right (by omega)] at h1
  rw [Nat.add_sub_cancel_left] at h1
  rcases Nat.lt_or_ge e 10 with he10 | he10
  · rw [List.getElem?_append_left (by omega)] at h0
    interval_cases e
    · exact absurd h0 (by decide)
    · exact absurd h0 (by decide)
    · exact absurd h0 (by decide)
    · exact absurd h0 (by decide)
    · exact absurd h0 (by decide)
    · exact absurd h0 (by decide)
    · exact absurd h0 (by decide)
    · exact absurd h0 (by decide)
    · rw [List.getElem?_append_right (by omega)] at h1
      have hmem : 't' ∈ ds := List.getElem?_mem h1
      exact absurd (hds 't' hmem) (by decide)
  · rw [List.getElem?_append_right (by omega)] at h0
    have hmem : '-' ∈ ds := List.getElem?_mem h0
    exact absurd (hds '-' hmem) (by decide)

theorem lastIndexOf_split (p ds : List Char) (hds : ∀ c ∈ ds, c.isDigit = true) :
    lastIndexOf (p ++ thinkingDelim ++ ds) thinkingDelim = some p.length := by
  have hmatch : matchAt (p ++ thinkingDelim ++ ds) thinkingDelim p.length = true := by
    unfold matchAt
    rw [List.append_assoc, List.drop_left]
    exact List.isPrefixOf_iff_prefix.mpr (List.prefix_append _ _)
  unfold lastIndexOf
  refine lastIndexAux_eq_some _ _ _ hmatch _ ?_ ?_
  · simp only [List.length_append]
    omega
  · intro k h1 _h2
    exact no_match_beyond p ds hds k h1

theorem split_take (p ds : List Char) :
    (p ++ thinkingDelim ++ ds).take p.length = p := by
  rw [List.append_assoc, List.take_left]

theorem split_drop (p ds : List Char) :
    (p ++ thinkingDelim ++ ds).drop (p.length + thinkingDelim.length) = ds := by
  rw [List.append_assoc, ← List.drop_drop, List.drop_left, List.drop_left]

/-! ## `goAtoi` on decimal digit strings -/

theorem readDigits_digits : ∀ (ds : List Char), (∀ c ∈ ds, c.isDigit = true) →
    ∀ acc, readDigits ds acc =
      some (ds.foldl (fun a c => a * 10 + (c.toNat - 48)) acc)
  | [], _, _ => rfl
  | c :: rest, h, acc => by
    have hc : c.isDigit = true := h c (List.mem_cons_self _ _)
    simp only [readDigits, hc, if_true, List.foldl_cons]
    exact readDigits_digits rest (fun x hx => h x (List.mem_cons_of_mem _ hx)) _

theorem goAtoi_digits (ds : List Char) (hne : ds ≠ [])
    (hds : ∀ c ∈ ds, c.isDigit = true)
    (hr : (decimalVal ds : Int) ≤ 2 ^ 63 - 1) :
    goAtoi ds = some ((decimalVal ds : Int)) := by
  cases ds with
  | nil => exact absurd rfl hne
  | cons c rest =>
    have hc : c.isDigit = true := hds c (List.mem_cons_self _ _)
    have hc1 : ¬ c = '-' := by
      intro h
      subst h
      exact absurd hc (by decide)
    have hc2 : ¬ c = '+' := by
      intro h
      subst h
      exact absurd hc (by decide)
    simp only [goAtoi, hc1, hc2, or_self, if_false, decide_eq_true_eq,
      reduceCtorEq, ite_false]
    rw [readDigits_digits (c :: rest) hds 0]
    show (if ((decimalVal (c :: rest) : Int)) ≤ 2 ^ 63 - 1 then
        some ((decimalVal (c :: rest) : Int)) else none) =
      some ((decimalVal (c :: rest) : Int))
    rw [if_pos hr]

/-- The code's clamp agrees with the spec's `min(budget, hardCap - 1)`. -/
theorem effectiveBudget_eq_min (budget : Int) :
    effectiveBudget budget = min budget (hardCap - 1) := by
  simp only [effectiveBudget, hardCap]
  split_ifs <;> omega

/-- The valid-budget path always installs the thinking object with the
effective budget. -/
theorem addThinkingFields_thinking (o : JObj) (budget : Int) :
    (addThinkingFields o budget).get "thinking" =
      some (.obj [("type", .s "enabled"),
        ("budget_tokens", .n (effectiveBudget budget))]) := by
  simp only [addThinkingFields]
  split
  · rw [adjustMaxField_get_other _ _ _ _ _ _ (by decide),
      adjustMaxField_get_other _ _ _ _ _ _ (by decide)]
    exact JObj.get_set_self _ _ _
  · split
    · rw [JObj.get_set_ne _ _ _ _ (by decide),
        adjustMaxField_get_other _ _ _ _ _ _ (by decide),
        adjustMaxField_get_other _ _ _ _ _ _ (by decide)]
      exact JObj.get_set_self _ _ _
    · rw [JObj.get_set_ne _ _ _ _ (by decide),
        adjustMaxField_get_other _ _ _ _ _ _ (by decide),
        adjustMaxField_get_other _ _ _ _ _ _ (by decide)]
      exact JObj.get_set_self _ _ _

/-- C5 amended: for every model name `<prefix>-thinking-<digits>` whose prefix
begins with `claude-` and whose digit suffix has value `N` with `0 < N` in the
64-bit range of `strconv.Atoi` (the counterexample shows the range restriction
is necessary), the output model is `<prefix>` and `thinking.budget_tokens`
equals `min(N, hardCap - 1)`. -/
theorem C5_amended (o : JObj) (p ds : List Char)
    (hds : ∀ c ∈ ds, c.isDigit = true)
    (hp : hasPrefix p claudePrefix = true)
    (hm : o.get "model" = some (.s ⟨p ++ thinkingDelim ++ ds⟩))
    (h0 : 0 < decimalVal ds)
    (hr : (decimalVal ds : Int) ≤ 2 ^ 63 - 1) :
    bodyGet (processThinkingParameter (.obj o)).1 "model" = some (.s ⟨p⟩) ∧
    bodyGet (processThinkingParameter (.obj o)).1 "thinking" =
      some (.obj [("type", .s "enabled"),
        ("budget_tokens", .n (min ((decimalVal ds : Int)) (hardCap - 1)))]) := by
  have hne : ds ≠ [] := by
    intro h
    subst h
    simp [decimalVal] at h0
  have hpre : hasPrefix (p ++ thinkingDelim ++ ds) claudePrefix = true := by
    unfold hasPrefix at hp ⊢
    rw [ List.isPrefixOf_iff_prefix] at hp ⊢
    rw [List.append_assoc]
    exact hp.trans (List.prefix_append _ _)
  have hd : lastIndexOf (p ++ thinkingDelim ++ ds) thinkingDelim = some p.length :=
    lastIndexOf_split p ds hds
  have hat : goAtoi ((p ++ thinkingDelim ++ ds).drop (p.length + thinkingDelim.length)) =
      some ((decimalVal ds : Int)) := by
    rw [split_drop]
    exact goAtoi_digits ds hne hds hr
  have hrw := process_valid_budget o ⟨p ++ thinkingDelim ++ ds⟩ p.length
    ((decimalVal ds : Int)) hm hpre hd hat (by exact_mod_cast h0)
  rw [hrw]
  constructor
  · show (addThinkingFields _ _).get "model" = _
    rw [addThinkingFields_frame _ _ _ (by decide) (by decide) (by decide)]
    rw [JObj.get_set_self]
    rw [show ((⟨p ++ thinkingDelim ++ ds⟩ : String).data.take p.length) = p from
      split_take p ds]
  · show (addThinkingFields _ _).get "thinking" = _
    rw [addThinkingFields_thinking]
    rw [effectiveBudget_eq_min]

/-- Witness for the amended C5 at Example 2: requested budget 40000 clamps to
budget_tokens 31999. -/
theorem C5_amended_witness :
    bodyGet (processThinkingParameter (.obj budget40000Body)).1 "model" =
      some (.s "claude-x") ∧
    bodyGet (processThinkingParameter (.obj budget40000Body)).1 "thinking" =
      some (.obj [("type", .s "enabled"), ("budget_tokens", .n 31999)]) := by
  have h := C5_amended budget40000Body "claude-x".data "40000".data (by decide)
    (by decide) rfl (by decide) (by decide)
  refine ⟨h.1, h.2.trans ?_⟩
  have hval : decimalVal "40000".data = 40000 := by decide
  rw [hval]
  norm_num [hardCap]

/-- C5 fails as stated for budgets outside the 64-bit integer range: the model
name with suffix 2^63 is stripped but no thinking object is added at all,
where the claim requires `budget_tokens = min(2^63, 31999) = 31999`. -/
theorem C5_counterexample :
    decimalVal "9223372036854775808".data = 2 ^ 63 ∧
    0 < decimalVal "9223372036854775808".data ∧
    bodyGet (processThinkingParameter (.obj overflowBody)).1 "model" =
      some (.s "claude-x") ∧
    bodyGet (processThinkingParameter (.obj overflowBody)).1 "thinking" = none ∧
    bodyGet (processThinkingParameter (.obj overflowBody)).1 "thinking" ≠
      some (.obj [("type", .s "enabled"), ("budget_tokens", .n 31999)]) := by
  refine ⟨by decide, by decide, rfl, rfl, ?_⟩
  intro h
  have h2 : (none : Option JVal) =
      some (.obj [("type", .s "enabled"), ("budget_tokens", .n 31999)]) := h
  exact Option.noConfusion h2

/-! ## Ring buffer: the last `cap` lines are retained (C8) -/

theorem RBInv_init (cap : Nat) (hcap : 1 ≤ cap) :
    RBInv cap [] (NewRingBuffer cap) := by
  unfold RBInv NewRingBuffer
  have hlt : ¬ cap < 1 := by omega
  simp [hlt]

theorem RBInv_append (cap : Nat) (hcap : 1 ≤ cap) (hist : List String)
    (rb : RingBuffer) (h : RBInv cap hist rb) (x : String) :
    RBInv cap (hist ++ [x]) (RingBuffer.Append rb x) := by
  obtain ⟨h1, h2, h3, h4, h5, h6⟩ := h
  have hlen : (hist ++ [x]).length = hist.length + 1 := by simp
  by_cases hfull : rb.count = rb.cap
  · have hclen : cap ≤ hist.length := by rw [h1] at hfull; omega
    unfold RingBuffer.Append
    rw [if_pos hfull]
    refine ⟨h1, ?_, ?_, ?_, ?_, ?_⟩
    · show (rb.storage.set rb.tail x).length = cap
      rw [List.length_set, h2]
    · show rb.count = min (hist ++ [x]).length cap
      rw [hlen]
      omega
    · show (rb.head + 1) % rb.cap = ((hist ++ [x]).length - rb.count) % cap
      rw [h1, h4, hlen, Nat.mod_add_mod]
      rw [show hist.length - rb.count + 1 = hist.length + 1 - rb.count from by omega]
    · show (rb.tail + 1) % rb.cap = (hist ++ [x]).length % cap
      rw [h1, h5, hlen, Nat.mod_add_mod]
    · show ∀ i, i < rb.count →
        (rb.storage.set rb.tail x).getD (((rb.head + 1) % rb.cap + i) % cap) "" =
          (hist ++ [x]).getD ((hist ++ [x]).length - rb.count + i) ""
      intro i hi
      rw [hfull, h1] at hi
      have hidx : ((rb.head + 1) % rb.cap + i) % cap =
          (hist.length - cap + (1 + i)) % cap := by
        rw [h1, h4, hfull, h1, Nat.mod_add_mod, Nat.add_assoc, Nat.mod_add_mod]
      have hidx2 : (hist ++ [x]).length - rb.count + i =
          hist.length - cap + (1 + i) := by
        rw [hlen, hfull, h1]
        omega
      rw [hidx, hidx2]
      by_cases hlast : 1 + i = cap
      · rw [hlast]
        rw [show hist.length - cap + cap = hist.length from by omega]
        rw [← h5]
        simp only [List.getD_eq_getElem?_getD]
        rw [List.getElem?_set_self (by rw [h2, h5]; exact Nat.mod_lt _ (by omega))]
        rw [List.getElem?_concat_length]
      · have hlt1i : 1 + i < cap := by omega
        have hne2 : (hist.length - cap + (1 + i)) % cap ≠ rb.tail := by
          rw [h5]
          intro heq
          have hL : hist.length % cap = (hist.length - cap + 0) % cap := by
            rw [Nat.add_zero]
            exact Nat.mod_eq_sub_mod hclen
          rw [hL] at heq
          have hmod : (1 + i) ≡ 0 [MOD cap] :=
            Nat.ModEq.add_left_cancel' (hist.length - cap) heq
          have hval : (1 + i) % cap = 0 % cap := hmod
          rw [Nat.mod_eq_of_lt hlt1i, Nat.zero_mod] at hval
          omega
        simp only [List.getD_eq_getElem?_getD]
        rw [List.getElem?_set_ne fun hcontra => hne2 hcontra.symm]
        rw [List.getElem?_append_left (by omega)]
        have h6' := h6 (i + 1) (by rw [hfull, h1]; omega)
        rw [h4, hfull, h1, Nat.mod_add_mod] at h6'
        simp only [List.getD_eq_getElem?_getD] at h6'
        rw [show hist.length - cap + (1 + i) = hist.length - cap + (i + 1) from by
          omega]
        exact h6'
  · have hcnt : rb.count = hist.length := by rw [h1] at hfull; omega
    have hltcap : hist.length < cap := by rw [h1] at hfull; omega
    unfold RingBuffer.Append
    rw [if_neg hfull]
    refine ⟨h1, ?_, ?_, ?_, ?_, ?_⟩
    · show (rb.storage.set rb.tail x).length = cap
      rw [List.length_set, h2]
    · show rb.count + 1 = min (hist ++ [x]).length cap
      rw [hlen]
      omega
    · show rb.head = ((hist ++ [x]).length - (rb.count + 1)) % cap
      rw [h4, hlen]
      rw [show hist.length + 1 - (rb.count + 1) = hist.length - rb.count from by omega]
    · show (rb.tail + 1) % rb.cap = (hist ++ [x]).length % cap
      rw [h1, h5, hlen, Nat.mod_add_mod]
    · show ∀ i, i < rb.count + 1 →
        (rb.storage.set rb.tail x).getD ((rb.head + i) % cap) "" =
          (hist ++ [x]).getD ((hist ++ [x]).length - (rb.count + 1) + i) ""
      intro i hi
      rw [hcnt] at hi
      have hidx : (rb.head + i) % cap = i := by
        rw [h4, hcnt, Nat.sub_self, Nat.mod_add_mod, Nat.zero_add,
          Nat.mod_eq_of_lt (by omega)]
      have hidx2 : (hist ++ [x]).length - (rb.count + 1) + i = i := by
        rw [hlen, hcnt]
        omega
      rw [hidx, hidx2, h5, Nat.mod_eq_of_lt hltcap]
      by_cases hlast2 : i = hist.length
      · subst hlast2
        simp only [List.getD_eq_getElem?_getD]
        rw [List.getElem?_set_self (by rw [h2]; omega)]
        rw [List.getElem?_concat_length]
      · have hiL : i < hist.length := by omega
        simp only [List.getD_eq_getElem?_getD]
        rw [List.getElem?_set_ne fun hcontra => hlast2 hcontra.symm]
        rw [List.getElem?_append_left hiL]
        have h6' := h6 i (by omega)
        rw [h4, hcnt, Nat.sub_self, Nat.mod_add_mod, Nat.zero_add,
          Nat.mod_eq_of_lt (by omega)] at h6'
        simp only [List.getD_eq_getElem?_getD] at h6'
        exact h6'


theorem Elements_of_inv (cap : Nat) (hcap : 1 ≤ cap) (hist : List String)
    (rb : RingBuffer) (h : RBInv cap hist rb) :
    rb.Elements = hist.drop (hist.length - cap) := by
  obtain ⟨h1, h2, h3, h4, h5, h6⟩ := h
  have hcle : rb.count ≤ hist.length := by omega
  have hsub : hist.length - cap = hist.length - rb.count := by omega
  rw [hsub]
  unfold RingBuffer.Elements
  by_cases hc0 : rb.count = 0
  · rw [if_pos hc0]
    have h0 : hist.length - rb.count = hist.length := by omega
    rw [h0, List.drop_length]
  · rw [if_neg hc0, h1]
    apply List.ext_getElem?
    intro n
    by_cases hn : n < rb.count
    · rw [List.getElem?_map, List.getElem?_range hn]
      simp only [Option.map_some']
      rw [List.getElem?_drop]
      have hlt : hist.length - rb.count + n < hist.length := by omega
      rw [List.getElem?_eq_getElem hlt]
      have h6n := h6 n hn
      rw [h6n]
      rw [List.getD_eq_getElem?_getD, List.getElem?_eq_getElem hlt]
      rfl
    · rw [List.getElem?_eq_none, List.getElem?_eq_none]
      · rw [List.length_drop]
        omega
      · rw [List.length_map, List.length_range]
        omega

theorem RBInv_appendAll (cap : Nat) (hcap : 1 ≤ cap) :
    ∀ (lines hist : List String) (rb : RingBuffer), RBInv cap hist rb →
      RBInv cap (hist ++ lines) (appendAll rb lines)
  | [], hist, rb, h => by simpa [appendAll] using h
  | x :: rest, hist, rb, h => by
    have h2 := RBInv_append cap hcap hist rb h x
    have h3 := RBInv_appendAll cap hcap rest (hist ++ [x]) _ h2
    simpa [appendAll, List.append_assoc] using h3

/-- C8: for every capacity `cap ≥ 1`, the stored count never exceeds `cap`,
and once at least `cap` lines have been appended, `Elements()` has length
exactly `cap` and equals the last `cap` appended lines, oldest first. -/
theorem C8_ring_buffer (cap : Nat) (lines : List String) (hcap : 1 ≤ cap) :
    (appendAll (NewRingBuffer cap) lines).count ≤ cap ∧
    (cap ≤ lines.length →
      (appendAll (NewRingBuffer cap) lines).Elements.length = cap ∧
      (appendAll (NewRingBuffer cap) lines).Elements =
        lines.drop (lines.length - cap)) := by
  have hinv := RBInv_appendAll cap hcap lines [] _ (RBInv_init cap hcap)
  rw [List.nil_append] at hinv
  have hel := Elements_of_inv cap hcap lines _ hinv
  obtain ⟨h1, h2, h3, h4, h5, h6⟩ := hinv
  refine ⟨by omega, fun hge => ⟨?_, hel⟩⟩
  rw [hel, List.length_drop]
  omega

/-- Witness for C8 at capacity 2 with three appends. -/
theorem C8_ring_buffer_witness :
    (appendAll (NewRingBuffer 2) ["a", "b", "c"]).count ≤ 2 ∧
    (appendAll (NewRingBuffer 2) ["a", "b", "c"]).Elements.length = 2 ∧
    (appendAll (NewRingBuffer 2) ["a", "b", "c"]).Elements = ["b", "c"] := by
  have h := C8_ring_buffer 2 ["a", "b", "c"] (by decide)
  have h2 := h.2 (by decide)
  exact ⟨h.1, h2.1, h2.2.trans (by decide)⟩

/-! ## Supervisor `Start` on missing paths (C9) and `RunAuthCommand` (C3) -/

/-- C9: when the supervisor is not running and the binary or the config path
does not exist, `Start` returns the corresponding error (the binary is checked
first), spawns no backend process, and leaves the state unchanged — the
running flag stays false and the process handle is untouched. -/
theorem C9_start_missing_paths (fsExists : String → Bool) (newPid : Nat)
    (m : ManagerState) (hrun : m.isRunning = false)
    (hmiss : fsExists m.binaryPath = false ∨ fsExists m.configPath = false) :
    managerStart fsExists newPid m =
      (m, [.killedOrphans],
        some (if fsExists m.binaryPath then .configNotFound else .binaryNotFound)) ∧
    (managerStart fsExists newPid m).1.isRunning = false ∧
    (managerStart fsExists newPid m).1.cmdPid = m.cmdPid := by
  have hres : managerStart fsExists newPid m =
      (m, [.killedOrphans],
        some (if fsExists m.binaryPath then .configNotFound else .binaryNotFound)) := by
    unfold managerStart
    rcases hmiss with hb | hc
    · simp [hrun, hb]
    · by_cases hb2 : fsExists m.binaryPath
      · simp [hrun, hb2, hc]
      · simp [hrun, hb2]
  refine ⟨hres, ?_, ?_⟩
  · rw [hres]
    exact hrun
  · rw [hres]

/-- Witness for C9: both paths missing on an idle manager. -/
theorem C9_start_missing_paths_witness :
    managerStart (fun _ => false) 7 ⟨false, none, "/bin/x", "/etc/c"⟩ =
      (⟨false, none, "/bin/x", "/etc/c"⟩, [.killedOrphans],
        some .binaryNotFound) :=
  (C9_start_missing_paths (fun _ => false) 7 ⟨false, none, "/bin/x", "/etc/c"⟩
    rfl (Or.inl rfl)).1

/-- C3 fails as stated: `RunAuthCommand` with the Qwen job and an empty email
does not fail fast — it spawns the auth process and returns success (here the
child is still running after the wait window), with no error. -/
theorem C3_counterexample :
    (runAuthCommand true "config.yaml" .qwenLogin "" .stillRunning).1 =
      [.spawned ["--config", "config.yaml", "-qwen-login"]] ∧
    (runAuthCommand true "config.yaml" .qwenLogin "" .stillRunning).2.success =
      true ∧
    (runAuthCommand true "config.yaml" .qwenLogin "" .stillRunning).2.hasErr =
      false := by
  exact ⟨rfl, rfl, rfl⟩

/-- C3 amended: an empty Qwen email does not make `RunAuthCommand` fail fast;
it spawns the process normally and only suppresses the delayed stdin email
write (the event trace is exactly the spawn).  The empty-email fail-fast check
lives one layer up, in the connect handler, which answers 400 without invoking
`RunAuthCommand`. -/
theorem C3_amended (configPath : String) (outcome : ProcOutcome) :
    (runAuthCommand true configPath .qwenLogin "" outcome).1 =
      [.spawned ["--config", configPath, "-qwen-login"]] ∧
    handleConnect true configPath "qwen" "" outcome =
      (.httpError 400 "Email required for Qwen", []) := by
  constructor
  · cases outcome <;> rfl
  · rfl

end VibeProxy
